import Mathlib

/-!
# Verification of the drillx hash-construction core

A shallow embedding of `src/drillx/src/lib.rs`. Byte buffers are `List Nat`
whose elements are byte values (`< 256` where it matters). The external
equix solver and the keccak-256 primitive are outside the repository; they
are modelled as explicit parameters (`EquixModel`, the `keccak` function
argument), and theorems that depend on their documented contracts take
those contracts as hypotheses.
-/

namespace Drillx

/-- Pair up a byte list as unsigned 16-bit values, little-endian
(the fixed native byte order of `core::mem::transmute` to `[u16; 8]`). -/
def toU16s : List Nat → List Nat
  | b0 :: b1 :: rest => (b0 + 256 * b1) :: toU16s rest
  | _ => []

/-- Serialize a list of 16-bit values back to bytes, little-endian. -/
def ofU16s : List Nat → List Nat
  | [] => []
  | w :: rest => w % 256 :: w / 256 :: ofU16s rest

/-- `sorted` from lib.rs: reinterpret the 16 digest bytes as 8 `u16`
values, `sort_unstable` them ascending, and view the result as bytes. -/
def sorted (digest : List Nat) : List Nat :=
  ofU16s (List.insertionSort (· ≤ ·) (toU16s digest))

/-- `hashv` from lib.rs: keccak-256 of the sorted digest followed by the
nonce.  The keccak-256 primitive is external (sha3 crate / solana
syscall), so it is passed in as the function `keccak`. -/
def hashv (keccak : List Nat → List Nat) (digest nonce : List Nat) : List Nat :=
  keccak (sorted digest ++ nonce)

/-- `seed` from lib.rs: the 40-byte buffer challenge ‖ nonce (the 64-byte
alignment of `AlignedSeed` is a performance property with no effect on the
value). -/
def seed (challenge nonce : List Nat) : List Nat :=
  challenge ++ nonce

-- Round-trip of the u16 view: recombining low and high byte gives the
-- original value, with no bound needed (`w % 256 + 256 * (w / 256) = w`).
theorem toU16s_ofU16s (ws : List Nat) : toU16s (ofU16s ws) = ws := by
  induction ws with
  | nil => rfl
  | cons w rest ih =>
      simp only [ofU16s, toU16s, ih, Nat.mod_add_div]

theorem sorted_perm (d : List Nat) : (toU16s (sorted d)).Perm (toU16s d) := by
  rw [sorted, toU16s_ofU16s]
  exact List.perm_insertionSort _ _

theorem sorted_sorted (d : List Nat) :
    List.Sorted (· ≤ ·) (toU16s (sorted d)) := by
  rw [sorted, toU16s_ofU16s]
  exact List.sorted_insertionSort _ _

theorem sorted_eq_of_perm {d1 d2 : List Nat}
    (h : (toU16s d1).Perm (toU16s d2)) : sorted d1 = sorted d2 := by
  unfold sorted
  congr 1
  exact List.eq_of_perm_of_sorted
    ((List.perm_insertionSort _ _).trans
      (h.trans (List.perm_insertionSort _ _).symm))
    (List.sorted_insertionSort _ _) (List.sorted_insertionSort _ _)

/-- **C1** Malleability resistance: for every nonce `n` and any two 16-byte
digests whose u16 views are permutations of the same multiset of 8
unsigned 16-bit values, `hashv` agrees on them, for any keccak backend. -/
theorem malleability_resistance (keccak : List Nat → List Nat)
    (n d1 d2 : List Nat) (h1 : d1.length = 16) (h2 : d2.length = 16)
    (hperm : (toU16s d1).Perm (toU16s d2)) :
    hashv keccak d1 n = hashv keccak d2 n := by
  unfold hashv
  rw [sorted_eq_of_perm hperm]

/-- Witness for C1: two distinct byte arrays carrying the same multiset of
u16 values hash identically. -/
theorem malleability_resistance_witness :
    ([1, 0, 2, 0] ++ List.replicate 12 0).length = 16 ∧
    ([2, 0, 1, 0] ++ List.replicate 12 0).length = 16 ∧
    (toU16s ([1, 0, 2, 0] ++ List.replicate 12 0)).Perm
      (toU16s ([2, 0, 1, 0] ++ List.replicate 12 0)) ∧
    hashv id ([1, 0, 2, 0] ++ List.replicate 12 0) (List.replicate 8 0) =
      hashv id ([2, 0, 1, 0] ++ List.replicate 12 0) (List.replicate 8 0) :=
  ⟨by decide, by decide, by decide,
    malleability_resistance id (List.replicate 8 0) _ _
      (by decide) (by decide) (by decide)⟩

/-- **C2** `hashv` is the keccak hash of `sorted digest ‖ nonce`; `sorted`
sorts the u16 view ascending while preserving its multiset, and is
idempotent. -/
theorem hashv_sorted_spec (keccak : List Nat → List Nat) (d n : List Nat) :
    hashv keccak d n = keccak (sorted d ++ n) ∧
    List.Sorted (· ≤ ·) (toU16s (sorted d)) ∧
    (toU16s (sorted d)).Perm (toU16s d) ∧
    sorted (sorted d) = sorted d := by
  refine ⟨rfl, sorted_sorted d, sorted_perm d, ?_⟩
  unfold sorted
  rw [toU16s_ofU16s, List.Sorted.insertionSort_eq (List.sorted_insertionSort _ _)]

/-- `u8::leading_zeros` for a byte value: the number of leading zero bits
in the 8-bit representation. -/
def byteLZ (b : Nat) : Nat :=
  if 128 ≤ b then 0 else if 64 ≤ b then 1 else if 32 ≤ b then 2
  else if 16 ≤ b then 3 else if 8 ≤ b then 4 else if 4 ≤ b then 5
  else if 2 ≤ b then 6 else if 1 ≤ b then 7 else 8

/-- `difficulty` from lib.rs: scan the bytes left to right, accumulating
each byte's leading-zero-bit count, stopping at the first byte with fewer
than 8 leading zeros (its partial contribution included). -/
def difficulty : List Nat → Nat
  | [] => 0
  | b :: rest => if byteLZ b < 8 then byteLZ b else 8 + difficulty rest

/-- The value of a byte list read as a big-endian integer. -/
def beNat : List Nat → Nat
  | [] => 0
  | b :: rest => b * 2 ^ (8 * rest.length) + beNat rest

theorem byteLZ_le (b : Nat) : byteLZ b ≤ 8 := by
  unfold byteLZ
  split_ifs <;> omega

theorem byteLZ_eq_eight {b : Nat} (h : ¬ byteLZ b < 8) : b = 0 := by
  revert h
  unfold byteLZ
  split_ifs <;> omega

set_option maxRecDepth 4000 in
theorem byteLZ_bounds :
    ∀ b < 256, byteLZ b < 8 →
      2 ^ (7 - byteLZ b) ≤ b ∧ b < 2 ^ (8 - byteLZ b) := by
  decide

theorem beNat_lt (h : List Nat) (hb : ∀ b ∈ h, b < 256) :
    beNat h < 2 ^ (8 * h.length) := by
  induction h with
  | nil => simp [beNat]
  | cons b rest ih =>
      have hb0 : b < 256 := hb b (List.mem_cons_self b rest)
      have hrest := ih fun x hx => hb x (List.mem_cons_of_mem b hx)
      have hexp : 8 * (b :: rest).length = 8 + 8 * rest.length := by
        simp [List.length_cons]; ring
      rw [hexp, pow_add, beNat]
      have h1 : b * 2 ^ (8 * rest.length) + beNat rest <
          (b + 1) * 2 ^ (8 * rest.length) := by
        rw [add_mul, one_mul]
        omega
      have h2 : (b + 1) * 2 ^ (8 * rest.length) ≤
          2 ^ 8 * 2 ^ (8 * rest.length) := by
        apply Nat.mul_le_mul_right
        omega
      omega

/-- Key inductive characterization: `difficulty h` is the number of
leading zero bits of `h` read as a big-endian `8 * h.length`-bit
integer. -/
theorem difficulty_char (h : List Nat) (hb : ∀ b ∈ h, b < 256) :
    difficulty h ≤ 8 * h.length ∧
    beNat h < 2 ^ (8 * h.length - difficulty h) ∧
    (difficulty h = 8 * h.length ∨
      2 ^ (8 * h.length - difficulty h - 1) ≤ beNat h) := by
  induction h with
  | nil => simp [difficulty, beNat]
  | cons b rest ih =>
      have hb0 : b < 256 := hb b (List.mem_cons_self b rest)
      obtain ⟨ih1, ih2, ih3⟩ := ih fun x hx => hb x (List.mem_cons_of_mem b hx)
      have hrest : beNat rest < 2 ^ (8 * rest.length) := beNat_lt rest
        fun x hx => hb x (List.mem_cons_of_mem b hx)
      have hlen : (b :: rest).length = rest.length + 1 := List.length_cons b rest
      by_cases hz : byteLZ b < 8
      · -- first byte has fewer than 8 leading zeros: the scan stops here
        obtain ⟨hlo, hhi⟩ := byteLZ_bounds b hb0 hz
        have hdiff : difficulty (b :: rest) = byteLZ b := by
          simp [difficulty, hz]
        rw [hdiff, hlen, beNat]
        refine ⟨by omega, ?_, Or.inr ?_⟩
        · have he : 8 * (rest.length + 1) - byteLZ b =
              (8 - byteLZ b) + 8 * rest.length := by omega
          rw [he, pow_add]
          have h1 : b * 2 ^ (8 * rest.length) + beNat rest <
              (b + 1) * 2 ^ (8 * rest.length) := by
            rw [add_mul, one_mul]; omega
          have h2 : (b + 1) * 2 ^ (8 * rest.length) ≤
              2 ^ (8 - byteLZ b) * 2 ^ (8 * rest.length) := by
            apply Nat.mul_le_mul_right
            omega
          omega
        · have he : 8 * (rest.length + 1) - byteLZ b - 1 =
              (7 - byteLZ b) + 8 * rest.length := by omega
          rw [he, pow_add]
          have h1 : 2 ^ (7 - byteLZ b) * 2 ^ (8 * rest.length) ≤
              b * 2 ^ (8 * rest.length) :=
            Nat.mul_le_mul_right _ hlo
          omega
      · -- zero byte: contributes all 8 of its bits and the scan continues
        have hb0' : b = 0 := byteLZ_eq_eight hz
        have hdiff : difficulty (b :: rest) = 8 + difficulty rest := by
          simp [difficulty, hz]
        have hbe : beNat (b :: rest) = beNat rest := by
          simp [beNat, hb0']
        rw [hdiff, hbe, hlen]
        refine ⟨by omega, ?_, ?_⟩
        · have he : 8 * (rest.length + 1) - (8 + difficulty rest) =
              8 * rest.length - difficulty rest := by omega
          rw [he]; exact ih2
        · rcases ih3 with h3 | h3
          · exact Or.inl (by omega)
          · refine Or.inr ?_
            have he : 8 * (rest.length + 1) - (8 + difficulty rest) - 1 =
                8 * rest.length - difficulty rest - 1 := by omega
            rw [he]; exact h3

/-- **C3** `difficulty` of a 32-byte hash is its big-endian leading-zero
bit count (pinned by the two power-of-two inequalities), lies in
`[0, 256]`, is 256 on the all-zero hash, and is 12 whenever byte 0 is
`0x00` and byte 1 is `0x0F`. -/
theorem difficulty_spec :
    (∀ h : List Nat, h.length = 32 → (∀ b ∈ h, b < 256) →
      difficulty h ≤ 256 ∧
      beNat h < 2 ^ (256 - difficulty h) ∧
      (difficulty h = 256 ∨ 2 ^ (256 - difficulty h - 1) ≤ beNat h)) ∧
    difficulty (List.replicate 32 0) = 256 ∧
    (∀ rest : List Nat, difficulty (0 :: 15 :: rest) = 12) := by
  refine ⟨?_, by decide, fun rest => by simp [difficulty, byteLZ]⟩
  intro h hlen hb
  have := difficulty_char h hb
  rw [hlen] at this
  norm_num at this ⊢
  exact this

/-- Witness for C3: the universally quantified part evaluated on the hash
whose first byte is `0x01` (difficulty 7). -/
theorem difficulty_spec_witness :
    (1 :: List.replicate 31 0).length = 32 ∧
    (∀ b ∈ (1 :: List.replicate 31 0), b < 256) ∧
    (difficulty (1 :: List.replicate 31 0) ≤ 256 ∧
      beNat (1 :: List.replicate 31 0) <
        2 ^ (256 - difficulty (1 :: List.replicate 31 0)) ∧
      (difficulty (1 :: List.replicate 31 0) = 256 ∨
        2 ^ (256 - difficulty (1 :: List.replicate 31 0) - 1) ≤
          beNat (1 :: List.replicate 31 0))) :=
  ⟨by decide, by decide,
    difficulty_spec.1 (1 :: List.replicate 31 0) (by decide) (by decide)⟩

/-- The drillx error type from lib.rs. -/
inductive DrillxError where
  | BadEquix
  | NoSolutions
deriving DecidableEq

/-- Modelled from the spec: the external interface of the equix solver
(spec §6), which is not part of this repository.  `solve` searches a
40-byte seed, `build` compiles a solver context for a seed, and
`solveWithMemory` runs a built context on caller scratch memory; each
returned solution is represented directly by its 16-byte `to_bytes`
encoding.  `verifyBytes` is the independent validity check. -/
structure EquixModel (Mem Ctx : Type) where
  solve : List Nat → Except Unit (List (List Nat))
  build : List Nat → Except Unit Ctx
  solveWithMemory : Ctx → Mem → List (List Nat)
  verifyBytes : List Nat → List Nat → Bool

/-- `digest` from lib.rs: solve the seed, map solver failure to
`BadEquix`, an empty solution set to `NoSolutions`, and otherwise take the
solution at index 0. -/
def digest {Mem Ctx : Type} (E : EquixModel Mem Ctx)
    (challenge nonce : List Nat) : Except DrillxError (List Nat) :=
  match E.solve (seed challenge nonce) with
  | .error _ => .error .BadEquix
  | .ok [] => .error .NoSolutions
  | .ok (s :: _) => .ok s

/-- `digest_with_memory` from lib.rs: build a solver context for the seed
(`BadEquix` on failure), solve it with the caller's scratch memory, and
proceed as `digest`. -/
def digest_with_memory {Mem Ctx : Type} (E : EquixModel Mem Ctx)
    (memory : Mem) (challenge nonce : List Nat) :
    Except DrillxError (List Nat) :=
  match E.build (seed challenge nonce) with
  | .error _ => .error .BadEquix
  | .ok equix =>
      match E.solveWithMemory equix memory with
      | [] => .error .NoSolutions
      | s :: _ => .ok s

/-- The `Hash` struct from lib.rs: raw digest plus final keccak hash. -/
structure Hash where
  d : List Nat
  h : List Nat
deriving DecidableEq

/-- `hash` from lib.rs: obtain the digest and pair it with
`hashv digest nonce`. -/
def hash {Mem Ctx : Type} (E : EquixModel Mem Ctx)
    (keccak : List Nat → List Nat) (challenge nonce : List Nat) :
    Except DrillxError Hash :=
  (digest E challenge nonce).map fun d => { d := d, h := hashv keccak d nonce }

/-- `hash_with_memory` from lib.rs: same as `hash` but via
`digest_with_memory`. -/
def hash_with_memory {Mem Ctx : Type} (E : EquixModel Mem Ctx)
    (keccak : List Nat → List Nat) (memory : Mem)
    (challenge nonce : List Nat) : Except DrillxError Hash :=
  (digest_with_memory E memory challenge nonce).map
    fun d => { d := d, h := hashv keccak d nonce }

/-- `is_valid_digest` from lib.rs: ask the external verifier whether the
digest is a valid equihash construction for `seed challenge nonce`. -/
def is_valid_digest {Mem Ctx : Type} (E : EquixModel Mem Ctx)
    (challenge nonce digest : List Nat) : Bool :=
  E.verifyBytes (seed challenge nonce) digest

/-- The `Solution` struct from lib.rs: digest and nonce pair. -/
structure Solution where
  d : List Nat
  n : List Nat
deriving DecidableEq

/-- `Solution::new` from lib.rs: plain constructor, no validation. -/
def Solution.new (digest nonce : List Nat) : Solution :=
  { d := digest, n := nonce }

/-- `Solution::is_valid` from lib.rs: verify the stored digest against the
seed rebuilt from the challenge and the stored nonce. -/
def Solution.is_valid {Mem Ctx : Type} (s : Solution) (E : EquixModel Mem Ctx)
    (challenge : List Nat) : Bool :=
  is_valid_digest E challenge s.n s.d

/-- `Solution::to_hash` from lib.rs: recompute the keccak hash from the
stored digest and nonce (the digest field itself is carried over
unchanged). -/
def Solution.to_hash (s : Solution) (keccak : List Nat → List Nat) : Hash :=
  { d := s.d, h := hashv keccak s.d s.n }

/-- `Solution::from_bytes` from lib.rs: split a 24-byte buffer into the
16-byte digest and the 8-byte nonce. -/
def Solution.from_bytes (bytes : List Nat) : Solution :=
  { d := bytes.take 16, n := bytes.drop 16 }

/-- `Solution::to_bytes` from lib.rs: digest followed by nonce, no
padding. -/
def Solution.to_bytes (s : Solution) : List Nat :=
  s.d ++ s.n

/-- A sample digest whose u16 view `[1, 0, 0, 0, 0, 0, 0, 0]` is not
sorted ascending. -/
def d0 : List Nat := 1 :: 0 :: List.replicate 14 0

/-- A sample equix model that always returns the single solution `d0` and
accepts every digest. -/
def E0 : EquixModel Unit Unit where
  solve := fun _ => .ok [d0]
  build := fun _ => .ok ()
  solveWithMemory := fun _ _ => [d0]
  verifyBytes := fun _ _ => true

/-- **C9** Seed assembly: `seed` deterministically lays out the 32
challenge bytes followed by the 8 nonce bytes in a 40-byte buffer. -/
theorem seed_spec (challenge nonce : List Nat)
    (hc : challenge.length = 32) (hn : nonce.length = 8) :
    (seed challenge nonce).length = 40 ∧
    (seed challenge nonce).take 32 = challenge ∧
    (seed challenge nonce).drop 32 = nonce := by
  refine ⟨?_, ?_, ?_⟩
  · simp [seed, hc, hn]
  · rw [seed, ← hc, List.take_left]
  · rw [seed, ← hc, List.drop_left]

/-- Witness for C9: seed assembly evaluated on concrete inputs. -/
theorem seed_spec_witness :
    (seed (List.replicate 32 3) (List.replicate 8 4)).length = 40 ∧
    (seed (List.replicate 32 3) (List.replicate 8 4)).take 32 =
      List.replicate 32 3 ∧
    (seed (List.replicate 32 3) (List.replicate 8 4)).drop 32 =
      List.replicate 8 4 :=
  seed_spec (List.replicate 32 3) (List.replicate 8 4) (by decide) (by decide)

/-- **C7** Solution codec round-trip: `from_bytes` is total by type, every
24-byte buffer decodes to a solution with 16-byte digest and 8-byte nonce
that re-encodes to the same buffer, and decode inverts encode. -/
theorem solution_round_trip :
    (∀ s : Solution, s.d.length = 16 →
      Solution.from_bytes (Solution.to_bytes s) = s) ∧
    (∀ bytes : List Nat, bytes.length = 24 →
      (Solution.from_bytes bytes).d.length = 16 ∧
      (Solution.from_bytes bytes).n.length = 8 ∧
      Solution.to_bytes (Solution.from_bytes bytes) = bytes) := by
  constructor
  · intro s hd
    cases s with
    | mk d n =>
        simp only [Solution.to_bytes, Solution.from_bytes] at hd ⊢
        rw [← hd, List.take_left, List.drop_left]
  · intro bytes hb
    refine ⟨?_, ?_, ?_⟩
    · simp [Solution.from_bytes, hb]
    · simp [Solution.from_bytes, hb]
    · simp [Solution.from_bytes, Solution.to_bytes]

/-- Witness for C7: round-trip evaluated on a concrete solution and a
concrete 24-byte buffer. -/
theorem solution_round_trip_witness :
    Solution.from_bytes
        (Solution.to_bytes (Solution.mk (List.replicate 16 5) [9])) =
      Solution.mk (List.replicate 16 5) [9] ∧
    Solution.to_bytes (Solution.from_bytes (List.replicate 24 7)) =
      List.replicate 24 7 :=
  ⟨solution_round_trip.1 (Solution.mk (List.replicate 16 5) [9]) (by decide),
    (solution_round_trip.2 (List.replicate 24 7) (by decide)).2.2⟩

/-- **C5** Error protocol of the solver adapter: `digest` and
`digest_with_memory` return `BadEquix` exactly when the solver context
cannot be built, `NoSolutions` exactly when the solution set is empty,
and otherwise the solution at index 0; every call lands in one of these
three outcomes. -/
theorem error_protocol {Mem Ctx : Type} (E : EquixModel Mem Ctx)
    (memory : Mem) (c n : List Nat) :
    (digest E c n = .error .BadEquix ↔ E.solve (seed c n) = .error ()) ∧
    (digest E c n = .error .NoSolutions ↔ E.solve (seed c n) = .ok []) ∧
    (∀ s rest, E.solve (seed c n) = .ok (s :: rest) → digest E c n = .ok s) ∧
    (digest_with_memory E memory c n = .error .BadEquix ↔
      E.build (seed c n) = .error ()) ∧
    (digest_with_memory E memory c n = .error .NoSolutions ↔
      ∃ ctx, E.build (seed c n) = .ok ctx ∧
        E.solveWithMemory ctx memory = []) ∧
    (∀ ctx s rest, E.build (seed c n) = .ok ctx →
      E.solveWithMemory ctx memory = s :: rest →
      digest_with_memory E memory c n = .ok s) ∧
    (digest E c n = .error .BadEquix ∨ digest E c n = .error .NoSolutions ∨
      ∃ dg, digest E c n = .ok dg) ∧
    (digest_with_memory E memory c n = .error .BadEquix ∨
      digest_with_memory E memory c n = .error .NoSolutions ∨
      ∃ dg, digest_with_memory E memory c n = .ok dg) := by
  refine ⟨?_, ?_, ?_, ?_, ?_, ?_, ?_, ?_⟩
  · unfold digest
    rcases hs : E.solve (seed c n) with ⟨⟩ | (_ | ⟨s, rest⟩) <;> simp
  · unfold digest
    rcases hs : E.solve (seed c n) with ⟨⟩ | (_ | ⟨s, rest⟩) <;> simp
  · unfold digest
    rcases hs : E.solve (seed c n) with ⟨⟩ | (_ | ⟨s0, rest0⟩)
    · intro s rest h
      exact absurd h (by simp)
    · intro s rest h
      exact absurd h (by simp)
    · intro s rest h
      injection h with h1
      injection h1 with h2 h3
      subst h2
      rfl
  · rcases hb : E.build (seed c n) with ⟨⟩ | ctx
    · simp [digest_with_memory, hb]
    · rcases hsw : E.solveWithMemory ctx memory with _ | ⟨s, rest⟩ <;>
        simp [digest_with_memory, hb, hsw]
  · rcases hb : E.build (seed c n) with ⟨⟩ | ctx
    · simp [digest_with_memory, hb]
    · rcases hsw : E.solveWithMemory ctx memory with _ | ⟨s, rest⟩ <;>
        simp [digest_with_memory, hb, hsw]
  · intro ctx2 s rest hb hsw
    simp [digest_with_memory, hb, hsw]
  · unfold digest
    rcases hs : E.solve (seed c n) with ⟨⟩ | (_ | ⟨s0, rest0⟩)
    · exact Or.inl rfl
    · exact Or.inr (Or.inl rfl)
    · exact Or.inr (Or.inr ⟨s0, rfl⟩)
  · rcases hb : E.build (seed c n) with ⟨⟩ | ctx
    · exact Or.inl (by simp [digest_with_memory, hb])
    · rcases hsw : E.solveWithMemory ctx memory with _ | ⟨s0, rest0⟩
      · exact Or.inr (Or.inl (by simp [digest_with_memory, hb, hsw]))
      · exact Or.inr (Or.inr ⟨s0, by simp [digest_with_memory, hb, hsw]⟩)


/-- Witness for C5: both adapters evaluated on the sample model return the
index-0 solution. -/
theorem error_protocol_witness :
    digest E0 (List.replicate 32 1) (List.replicate 8 2) = .ok d0 ∧
    digest_with_memory E0 () (List.replicate 32 1) (List.replicate 8 2) =
      .ok d0 :=
  ⟨(error_protocol E0 () (List.replicate 32 1) (List.replicate 8 2)).2.2.1
      d0 [] rfl,
    (error_protocol E0 () (List.replicate 32 1)
        (List.replicate 8 2)).2.2.2.2.2.1 () d0 [] rfl rfl⟩

theorem except_map_ok {α β ε : Type} (f : α → β) (x : Except ε α) (b : β) :
    x.map f = .ok b ↔ ∃ a, x = .ok a ∧ f a = b := by
  cases x <;> simp [Except.map]

/-- **C6** Memory-reuse equivalence: under the external solver contract
that `solve` and `build`/`solveWithMemory` agree on a seed, whenever both
`hash` and `hash_with_memory` succeed they return the same digest and the
same hash. -/
theorem memory_reuse_equiv {Mem Ctx : Type} (E : EquixModel Mem Ctx)
    (keccak : List Nat → List Nat) (memory : Mem) (c n : List Nat)
    (hagree : ∀ l1 ctx l2, E.solve (seed c n) = .ok l1 →
      E.build (seed c n) = .ok ctx → E.solveWithMemory ctx memory = l2 →
      l1 = l2)
    (h1 h2 : Hash) (hh1 : hash E keccak c n = .ok h1)
    (hh2 : hash_with_memory E keccak memory c n = .ok h2) :
    h1.d = h2.d ∧ h1.h = h2.h := by
  obtain ⟨dA, hdA, hfA⟩ := (except_map_ok _ _ _).1 hh1
  obtain ⟨dB, hdB, hfB⟩ := (except_map_ok _ _ _).1 hh2
  rcases hs : E.solve (seed c n) with u | (_ | ⟨s0, rest0⟩)
  · simp [digest, hs] at hdA
  · simp [digest, hs] at hdA
  · simp [digest, hs] at hdA
    rcases hb : E.build (seed c n) with v | ctx
    · simp [digest_with_memory, hb] at hdB
    · rcases hsw : E.solveWithMemory ctx memory with _ | ⟨s1, rest1⟩
      · simp [digest_with_memory, hb, hsw] at hdB
      · simp [digest_with_memory, hb, hsw] at hdB
        have hll := hagree (s0 :: rest0) ctx (s1 :: rest1) hs hb hsw
        injection hll with hs01 _
        subst hfA
        subst hfB
        subst hdA
        subst hdB
        subst hs01
        exact ⟨rfl, rfl⟩

/-- Witness for C6: both entry points on the sample model produce the
same hash value. -/
theorem memory_reuse_equiv_witness :
    (Hash.mk d0 (hashv id d0 (List.replicate 8 6))).d =
      (Hash.mk d0 (hashv id d0 (List.replicate 8 6))).d ∧
    (Hash.mk d0 (hashv id d0 (List.replicate 8 6))).h =
      (Hash.mk d0 (hashv id d0 (List.replicate 8 6))).h :=
  memory_reuse_equiv E0 id () (List.replicate 32 6) (List.replicate 8 6)
    (by
      intro l1 ctx l2 ha hb hc
      injection ha with ha1
      rw [← ha1, ← hc]
      rfl)
    (Hash.mk d0 (hashv id d0 (List.replicate 8 6)))
    (Hash.mk d0 (hashv id d0 (List.replicate 8 6))) rfl rfl

/-- **C4** Validity consistency: under the external solver contract that
every returned solution passes the verifier, a successful `hash` yields a
digest that `Solution::is_valid` accepts for the same challenge. -/
theorem validity_consistency {Mem Ctx : Type} (E : EquixModel Mem Ctx)
    (keccak : List Nat → List Nat) (c n : List Nat) (h : Hash)
    (hsound : ∀ l dg, E.solve (seed c n) = .ok l → dg ∈ l →
      E.verifyBytes (seed c n) dg = true)
    (hh : hash E keccak c n = .ok h) :
    (Solution.new h.d n).is_valid E c = true := by
  obtain ⟨dA, hdA, hfA⟩ := (except_map_ok _ _ _).1 hh
  rcases hs : E.solve (seed c n) with u | (_ | ⟨s0, rest0⟩)
  · simp [digest, hs] at hdA
  · simp [digest, hs] at hdA
  · simp [digest, hs] at hdA
    have hv := hsound (s0 :: rest0) s0 hs (List.mem_cons_self _ _)
    have hd : h.d = s0 := by
      rw [← hfA]
      simp [hdA]
    rw [Solution.is_valid, Solution.new, is_valid_digest, hd]
    exact hv

/-- Witness for C4: a solution built from a successful hash on the sample
model passes the verifier. -/
theorem validity_consistency_witness :
    (Solution.new (Hash.mk d0 (hashv id d0 (List.replicate 8 5))).d
        (List.replicate 8 5)).is_valid E0 (List.replicate 32 5) = true :=
  validity_consistency E0 id (List.replicate 32 5) (List.replicate 8 5)
    (Hash.mk d0 (hashv id d0 (List.replicate 8 5)))
    (fun _ _ _ _ => rfl) rfl

/-- **C8** Frame property of `to_hash`: the returned hash field is exactly
`hashv` of the stored digest and nonce, the stored digest is carried over
unchanged, and the result agrees with what the top-level `hash` would
return whenever the solver produces this digest. -/
theorem to_hash_frame (keccak : List Nat → List Nat) (s : Solution) :
    (s.to_hash keccak).h = hashv keccak s.d s.n ∧
    (s.to_hash keccak).d = s.d ∧
    (∀ (Mem Ctx : Type) (E : EquixModel Mem Ctx) (c : List Nat),
      digest E c s.n = .ok s.d →
      hash E keccak c s.n = .ok (s.to_hash keccak)) := by
  refine ⟨rfl, rfl, ?_⟩
  intro Mem Ctx E c hd
  simp [hash, hd, Except.map, Solution.to_hash]

/-- Witness for C8: `to_hash` on the sample model's digest agrees with the
top-level `hash`. -/
theorem to_hash_frame_witness :
    hash E0 id (List.replicate 32 9) (List.replicate 8 1) =
      .ok ((Solution.mk d0 (List.replicate 8 1)).to_hash id) :=
  (to_hash_frame id (Solution.mk d0 (List.replicate 8 1))).2.2
    Unit Unit E0 (List.replicate 32 9) rfl

/-- **C10** The digest field of a returned `Hash` is the raw solver
digest, not its sorted canonical form: `to_hash` copies the stored digest
verbatim, successful `hash` and `hash_with_memory` calls store exactly
the solver digest, and there is a run whose returned digest differs from
its sorted form. -/
theorem raw_digest_spec :
    (∀ (keccak : List Nat → List Nat) (s : Solution),
      (s.to_hash keccak).d = s.d) ∧
    (∀ (Mem Ctx : Type) (E : EquixModel Mem Ctx)
      (keccak : List Nat → List Nat) (c n : List Nat) (h : Hash),
      hash E keccak c n = .ok h → digest E c n = .ok h.d) ∧
    (∀ (Mem Ctx : Type) (E : EquixModel Mem Ctx)
      (keccak : List Nat → List Nat) (memory : Mem) (c n : List Nat)
      (h : Hash),
      hash_with_memory E keccak memory c n = .ok h →
      digest_with_memory E memory c n = .ok h.d) ∧
    (∃ h : Hash,
      hash E0 id (List.replicate 32 0) (List.replicate 8 3) = .ok h ∧
      h.d ≠ sorted h.d) := by
  refine ⟨fun _ _ => rfl, ?_, ?_, ?_⟩
  · intro Mem Ctx E keccak c n h hh
    obtain ⟨dA, hdA, hfA⟩ := (except_map_ok _ _ _).1 hh
    rw [← hfA]
    exact hdA
  · intro Mem Ctx E keccak memory c n h hh
    obtain ⟨dA, hdA, hfA⟩ := (except_map_ok _ _ _).1 hh
    rw [← hfA]
    exact hdA
  · exact ⟨Hash.mk d0 (hashv id d0 (List.replicate 8 3)), rfl, by decide⟩

/-- Witness for C10: the digest stored in a successful hash on the sample
model, via either entry point, is the raw solver digest `d0`. -/
theorem raw_digest_spec_witness :
    digest E0 (List.replicate 32 4) (List.replicate 8 4) =
      .ok (Hash.mk d0 (hashv id d0 (List.replicate 8 4))).d ∧
    digest_with_memory E0 () (List.replicate 32 4) (List.replicate 8 4) =
      .ok (Hash.mk d0 (hashv id d0 (List.replicate 8 4))).d :=
  ⟨raw_digest_spec.2.1 Unit Unit E0 id (List.replicate 32 4)
      (List.replicate 8 4) (Hash.mk d0 (hashv id d0 (List.replicate 8 4))) rfl,
    raw_digest_spec.2.2.1 Unit Unit E0 id () (List.replicate 32 4)
      (List.replicate 8 4) (Hash.mk d0 (hashv id d0 (List.replicate 8 4))) rfl⟩

end Drillx
